import Mathlib

set_option maxHeartbeats 1000000

/-! # Shallow embedding of the reconciler engine

Embeds the data model and operations of the Go package `reconciler`
(file reconciler.go): null-aware row values, field diffing, conflict
classification, resolution policy (including the interactive prompt),
record assembly with provenance metadata, the key index, the matching
passes of Run, and batched insertion. Database access and console
output are modelled by their pure effect on the data. -/

/-- Conflict resolution strategy (Go: `ConflictStrategy`). -/
inductive ConflictStrategy where
  | UseA
  | UseB
  | AskUser
deriving DecidableEq, Repr

open ConflictStrategy

/-- Run counters (Go: `MergeStats`; wall-clock timestamps omitted). -/
structure MergeStats where
  TotalA : Nat := 0
  TotalB : Nat := 0
  TotalC : Nat := 0
  ExactMatch : Nat := 0
  OnlyInA : Nat := 0
  OnlyInB : Nat := 0
  Conflict : Nat := 0
  NullAutoFilled : Nat := 0
  ConflictUseA : Nat := 0
  ConflictUseB : Nat := 0
deriving DecidableEq, Repr

/-- A database value: `none` is SQL NULL (Go: a nil `*string`). -/
abbrev Val := Option String

/-- A loaded row (Go: `rowData`), a finite map from field name to value.
The most recently inserted binding for a key wins, mirroring Go map
assignment. -/
structure RowData where
  values : List (String × Val)
deriving DecidableEq, Repr

/-- Map lookup with presence information (Go: `v, ok := row.Values[f]`). -/
def RowData.get (r : RowData) (f : String) : Option Val :=
  r.values.lookup f

/-- Go map read `row.Values[f]` without the ok flag: an absent key yields
the zero value nil, i.e. NULL. -/
def RowData.getV (r : RowData) (f : String) : Val :=
  (r.get f).getD none

/-- Go map assignment `row.Values[f] = v`. -/
def RowData.set (r : RowData) (f : String) (v : Val) : RowData :=
  ⟨(f, v) :: r.values⟩

/-- Go `valuesEqual`: NULL equals only NULL; two non-NULL values compare
textually. -/
def valuesEqual : Val → Val → Bool
  | none, none => true
  | some a, some b => a == b
  | _, _ => false

/-- Go `isNullOrEmpty`: NULL or the empty string. -/
def isNullOrEmpty : Val → Bool
  | none => true
  | some s => s == ""

/-- Go `strings.Join` (also Lean `String.intercalate`), recursive form. -/
def stringsJoin (sep : String) : List String → String
  | [] => ""
  | [x] => x
  | x :: y :: xs => x ++ sep ++ stringsJoin sep (y :: xs)

/-- The merger configuration and resolved schema state (Go: `Merger`
after step 3 of `Run`; the derived sets are functions below). -/
structure Merger where
  keyFields : List String
  ignoreFieldsA : List String
  ignoreFieldsB : List String
  strategy : ConflictStrategy
  batchSize : Nat
  fieldNamesA : List String
  fieldNamesB : List String
deriving Repr

/-- Go `m.ignoreSetA` membership. -/
def Merger.ignoreSetA (m : Merger) (f : String) : Bool :=
  m.ignoreFieldsA.contains f

/-- Go `m.ignoreSetB` membership. -/
def Merger.ignoreSetB (m : Merger) (f : String) : Bool :=
  m.ignoreFieldsB.contains f

/-- C's schema is A's column list (Go: step 3 of `Run`). -/
def Merger.fieldNamesC (m : Merger) : List String :=
  m.fieldNamesA

/-- Go `m.bFieldInC`: field exists both on B and on C. -/
def Merger.bFieldInC (m : Merger) (f : String) : Bool :=
  m.fieldNamesB.contains f && m.fieldNamesC.contains f

/-- Comparison fields: C's fields minus key fields minus A's ignore list
(Go: step 3 of `Run`). -/
def Merger.compareFields (m : Merger) : List String :=
  m.fieldNamesC.filter (fun f => !m.keyFields.contains f && !m.ignoreSetA f)

/-- First pass of Go `compareAndMerge`: collect the differing fields. -/
def Merger.diffFieldsOf (m : Merger) (rowA rowB : RowData) : List String :=
  m.compareFields.filter (fun f =>
    if m.ignoreSetB f then false
    else
      match rowB.get f with
      | none => false
      | some valB => !valuesEqual (rowA.getV f) valB)

/-- Second pass of Go `compareAndMerge`: the merged row starts from A's
values across the output schema. -/
def Merger.mergedBase (m : Merger) (rowA : RowData) : RowData :=
  m.fieldNamesC.foldl (fun acc f => acc.set f (rowA.getV f)) (⟨[]⟩ : RowData)

/-- State of the classification loop in Go `compareAndMerge`. -/
structure ClassifyState where
  merged : RowData
  manualDiffFields : List String
  nullAutoFilled : Nat
deriving Repr

/-- One iteration of the classification loop (third pass of
`compareAndMerge`): auto-fill from B, auto-keep A, or mark manual. -/
def classifyStep (rowA rowB : RowData) (st : ClassifyState) (f : String) : ClassifyState :=
  match rowB.get f with
  | none => st
  | some valB =>
    let valA := rowA.getV f
    let aIsEmpty := isNullOrEmpty valA
    let bIsEmpty := isNullOrEmpty valB
    if aIsEmpty && !bIsEmpty then
      { st with merged := st.merged.set f valB, nullAutoFilled := st.nullAutoFilled + 1 }
    else if !aIsEmpty && bIsEmpty then
      st
    else
      { st with manualDiffFields := st.manualDiffFields ++ [f] }

/-- The whole classification loop over the differing fields. -/
def classifyDiffs (rowA rowB : RowData) (l : List String) (st : ClassifyState) : ClassifyState :=
  l.foldl (classifyStep rowA rowB) st

/-- Specification predicate: the field is auto-filled from B (A's value
NULL or empty, B's present and neither). -/
def autoFillB (rowA rowB : RowData) (f : String) : Bool :=
  match rowB.get f with
  | none => false
  | some valB => isNullOrEmpty (rowA.getV f) && !isNullOrEmpty valB

/-- Specification predicate: auto-keep A (A non-empty, B present but NULL
or empty). -/
def autoKeepA (rowA rowB : RowData) (f : String) : Bool :=
  match rowB.get f with
  | none => false
  | some valB => !isNullOrEmpty (rowA.getV f) && isNullOrEmpty valB

/-- Specification predicate: contested field (B present and the two
emptiness flags agree, i.e. neither auto rule fires). -/
def contestedField (rowA rowB : RowData) (f : String) : Bool :=
  match rowB.get f with
  | none => false
  | some valB => isNullOrEmpty (rowA.getV f) == isNullOrEmpty valB

/-- Go `strings.TrimSpace` on a character list: drop whitespace from
both ends. -/
def trimChars (l : List Char) : List Char :=
  ((l.dropWhile Char.isWhitespace).reverse.dropWhile Char.isWhitespace).reverse

/-- Go normalization of one interactive input line (askUserChoice lines
619-621): TrimSpace, then TrimRight of CR/LF, then TrimSpace and
ToUpper, carried out on the character list. -/
def goNormalize (s : String) : String :=
  let t1 := trimChars s.data
  let t2 := (t1.reverse.dropWhile (fun c => c == '\r' || c == '\n')).reverse
  String.mk ((trimChars t2).map Char.toUpper)

/-- Go `askUserChoice`. The interactive reader is a list of lines; `none`
is a read error, and an exhausted list reads as an error (EOF). Returns
the choice and the unconsumed rest of the stream. -/
def askUserChoice : List (Option String) → ConflictStrategy × List (Option String)
  | [] => (UseA, [])
  | none :: rest => (UseA, rest)
  | some s :: rest =>
    let input := goNormalize s
    if input = "A" then (UseA, rest)
    else if input = "B" then (UseB, rest)
    else askUserChoice rest

/-- The strategy switch in Go `compareAndMerge` (lines 566-577). -/
def resolveChoice (m : Merger) (stdin : List (Option String)) :
    ConflictStrategy × List (Option String) :=
  match m.strategy with
  | UseA => (UseA, stdin)
  | UseB => (UseB, stdin)
  | AskUser => askUserChoice stdin

/-- Winner-B overwrite loop of Go `compareAndMerge` (lines 589-593). -/
def overwriteWithB (rowB : RowData) (fields : List String) (merged : RowData) : RowData :=
  fields.foldl (fun acc f =>
    match rowB.get f with
    | some valB => acc.set f valB
    | none => acc) merged

/-- Go `buildCRowFromAWithMeta`. -/
def Merger.buildCRowFromAWithMeta (m : Merger) (rowA : RowData) (source : String)
    (conflict : Bool) (diffFields : String) : RowData :=
  let base := m.fieldNamesC.foldl (fun acc f => acc.set f (rowA.getV f)) (⟨[]⟩ : RowData)
  let r1 := base.set "_source" (some source)
  let r2 := r1.set "_conflict" (some (if conflict then "1" else "0"))
  if diffFields ≠ "" then r2.set "_diff_fields" (some diffFields)
  else r2.set "_diff_fields" none

/-- Go `buildCRowFromB`. -/
def Merger.buildCRowFromB (m : Merger) (rowB : RowData) : RowData :=
  let base := m.fieldNamesC.foldl (fun acc f =>
    acc.set f (
      if m.ignoreSetB f then none
      else
        match rowB.get f with
        | some v => if m.bFieldInC f then v else none
        | none => none)) (⟨[]⟩ : RowData)
  let r1 := base.set "_source" (some "B")
  let r2 := r1.set "_conflict" (some "0")
  r2.set "_diff_fields" none

/-- Go `buildCRowMerged`. -/
def Merger.buildCRowMerged (m : Merger) (merged : RowData) (source : String)
    (conflict : Bool) (diffFields : String) : RowData :=
  let base := m.fieldNamesC.foldl (fun acc f => acc.set f (merged.getV f)) (⟨[]⟩ : RowData)
  let r1 := base.set "_source" (some source)
  let r2 := r1.set "_conflict" (some (if conflict then "1" else "0"))
  if diffFields ≠ "" then r2.set "_diff_fields" (some diffFields)
  else r2.set "_diff_fields" none

/-- Result of one `compareAndMerge` call: the output row, updated stats,
and the unconsumed interactive input. -/
structure CMResult where
  row : RowData
  stats : MergeStats
  stdin : List (Option String)
deriving Repr

/-- Go `compareAndMerge`. -/
def Merger.compareAndMerge (m : Merger) (rowA rowB : RowData) (stats : MergeStats)
    (stdin : List (Option String)) : CMResult :=
  let diffFields := m.diffFieldsOf rowA rowB
  if diffFields = [] then
    ⟨m.buildCRowFromAWithMeta rowA "A" false "",
     { stats with ExactMatch := stats.ExactMatch + 1 }, stdin⟩
  else
    let stats1 := { stats with Conflict := stats.Conflict + 1 }
    let cs := classifyDiffs rowA rowB diffFields ⟨m.mergedBase rowA, [], 0⟩
    let stats2 := { stats1 with NullAutoFilled := stats1.NullAutoFilled + cs.nullAutoFilled }
    let diffStr := stringsJoin "," diffFields
    if cs.manualDiffFields = [] then
      ⟨m.buildCRowMerged cs.merged "MERGE_A" true diffStr, stats2, stdin⟩
    else
      let rc := resolveChoice m stdin
      if rc.1 = UseA then
        ⟨m.buildCRowMerged cs.merged "MERGE_A" true diffStr,
         { stats2 with ConflictUseA := stats2.ConflictUseA + 1 }, rc.2⟩
      else
        ⟨m.buildCRowMerged (overwriteWithB rowB cs.manualDiffFields cs.merged) "MERGE_B" true diffStr,
         { stats2 with ConflictUseB := stats2.ConflictUseB + 1 }, rc.2⟩

/-- Go `buildKey`: join key-field values with the reserved separator,
with the reserved sentinel for NULL/absent. -/
def Merger.buildKey (m : Merger) (row : RowData) : String :=
  stringsJoin "\x01@@\x01" (m.keyFields.map (fun kf =>
    match row.getV kf with
    | none => "\x00<NULL>\x00"
    | some v => v))

/-- Step 7 of Go `Run`: build B's key index; later rows overwrite earlier
ones. A prepended association list gives the same lookup semantics. -/
def Merger.buildBIndex (m : Merger) (dataB : List RowData) : List (String × RowData) :=
  dataB.foldl (fun idx r => (m.buildKey r, r) :: idx) []

/-- State threaded through the matching pass of Go `Run` (step 8). -/
structure RunState where
  stats : MergeStats
  resultRows : List RowData
  bMatched : List String
  stdin : List (Option String)
deriving Repr

/-- One iteration of the matching pass of Go `Run` over a row of A. -/
def Merger.stepA (m : Merger) (bIndex : List (String × RowData)) (st : RunState)
    (rowA : RowData) : RunState :=
  let keyA := m.buildKey rowA
  match bIndex.lookup keyA with
  | some rowB =>
    let r := m.compareAndMerge rowA rowB st.stats st.stdin
    { stats := r.stats, resultRows := st.resultRows ++ [r.row],
      bMatched := keyA :: st.bMatched, stdin := r.stdin }
  | none =>
    { st with stats := { st.stats with OnlyInA := st.stats.OnlyInA + 1 },
              resultRows := st.resultRows ++ [m.buildCRowFromAWithMeta rowA "A" false ""] }

/-- The matching pass of Go `Run` (step 8). -/
def Merger.runAPass (m : Merger) (bIndex : List (String × RowData))
    (dataA : List RowData) (st : RunState) : RunState :=
  dataA.foldl (m.stepA bIndex) st

/-- The B-only pass of Go `Run` (step 9), threading stats and result rows. -/
def Merger.runBPass (m : Merger) (bMatched : List String) (dataB : List RowData)
    (st : MergeStats × List RowData) : MergeStats × List RowData :=
  dataB.foldl (fun st rowB =>
    if bMatched.contains (m.buildKey rowB) then st
    else ({ st.1 with OnlyInB := st.1.OnlyInB + 1 },
          st.2 ++ [m.buildCRowFromB rowB])) st

/-- The pure pipeline of Go `Run` (steps 5-9 plus the final counters):
load results given, index B, match A against the index, collect B-only
rows. Returns the final stats and the rows handed to the writer. -/
def Merger.runCore (m : Merger) (dataA dataB : List RowData)
    (stdin : List (Option String)) : MergeStats × List RowData :=
  let stats0 : MergeStats := { TotalA := dataA.length, TotalB := dataB.length }
  let bIndex := m.buildBIndex dataB
  let st1 := m.runAPass bIndex dataA ⟨stats0, [], [], stdin⟩
  let st2 := m.runBPass st1.bMatched dataB (st1.stats, st1.resultRows)
  ({ st2.1 with TotalC := st2.2.length }, st2.2)

/-- The batch loop of Go `batchInsertC`. `exec` tells whether the k-th
INSERT statement succeeds (the database is external); the result is the
list of row batches actually written and whether the whole loop
succeeded. Structural fuel; `batchInsertC` supplies `rows.length`,
enough whenever the batch size is positive. -/
def insertLoop (bs : Nat) (exec : Nat → Bool) :
    Nat → List RowData → Nat → List (List RowData) × Bool
  | _, [], _ => ([], true)
  | 0, _ :: _, _ => ([], false)
  | fuel + 1, r :: rs, k =>
    if exec k then
      let rest := insertLoop bs exec fuel ((r :: rs).drop bs) (k + 1)
      ((r :: rs).take bs :: rest.1, rest.2)
    else ([], false)

/-- Go `batchInsertC` (step 10 of `Run`): empty input writes nothing and
succeeds; otherwise fixed-size batches are inserted in order until the
first failure. -/
def Merger.batchInsertC (m : Merger) (rows : List RowData) (exec : Nat → Bool) :
    List (List RowData) × Bool :=
  if rows = [] then ([], true)
  else insertLoop m.batchSize exec rows.length rows 0

/-- Consecutive slices of size `bs` (specification helper for the batch
loop), with the same structural fuel. -/
def chunksAux (bs : Nat) : Nat → List RowData → List (List RowData)
  | _, [] => []
  | 0, _ :: _ => []
  | fuel + 1, r :: rs => ((r :: rs).take bs) :: chunksAux bs fuel ((r :: rs).drop bs)

/-- Consecutive slices of size `bs` of a list. -/
def chunks (bs : Nat) (rows : List RowData) : List (List RowData) :=
  chunksAux bs rows.length rows

/-- Decision carried by one line of the interactive stream: an error line
decides A, a line normalizing to A or B decides that side, anything else
decides nothing (specification helper for `askUserChoice`). -/
def lineChoice : Option String → Option ConflictStrategy
  | none => some UseA
  | some s =>
    let n := goNormalize s
    if n = "A" then some UseA
    else if n = "B" then some UseB
    else none

/-- The provenance invariant of output rows: conflict flag "1" exactly
when the source is a merge, exactly when the diff-field list is a
non-NULL non-empty string; plain "A"/"B" rows carry "0" and NULL. -/
def metaInvariant (r : RowData) : Bool :=
  let src := r.get "_source"
  let conf := r.get "_conflict"
  let dif := r.get "_diff_fields"
  ((conf == some (some "1")) == (src == some (some "MERGE_A") || src == some (some "MERGE_B")))
  && ((conf == some (some "1")) == (match dif with
      | some (some s) => !(s == "")
      | _ => false))
  && (!(src == some (some "A") || src == some (some "B"))
      || (conf == some (some "0") && dif == some none))

/-- The three metadata column names are not business columns of C. -/
def Merger.metaFree (m : Merger) : Prop :=
  "_source" ∉ m.fieldNamesC ∧ "_conflict" ∉ m.fieldNamesC ∧ "_diff_fields" ∉ m.fieldNamesC

/-- The classification state reached inside `compareAndMerge` for a
matched pair: the merged row seeded from A, the contested fields, and
the auto-fill count. -/
def cmClassify (m : Merger) (rowA rowB : RowData) : ClassifyState :=
  classifyDiffs rowA rowB (m.diffFieldsOf rowA rowB) ⟨m.mergedBase rowA, [], 0⟩

/-! ## Basic lookup lemmas -/

@[simp]
theorem RowData.get_mk_nil (x : String) : (⟨[]⟩ : RowData).get x = none := by
  simp [RowData.get]

theorem RowData.get_set (r : RowData) (f g : String) (v : Val) :
    (r.set f v).get g = if g = f then some v else r.get g := by
  by_cases h : g = f
  · simp [RowData.get, RowData.set, List.lookup, h]
  · have hb : (g == f) = false := beq_eq_false_iff_ne.mpr h
    simp [RowData.get, RowData.set, List.lookup, hb, h]

theorem foldl_set_get (l : List String) (g : String → Val) (r0 : RowData) (x : String) :
    (l.foldl (fun acc f => acc.set f (g f)) r0).get x
      = if x ∈ l then some (g x) else r0.get x := by
  induction l generalizing r0 with
  | nil => simp
  | cons f l ih =>
    simp only [List.foldl_cons, ih, List.mem_cons]
    by_cases hx : x ∈ l
    · simp [hx]
    · by_cases hf : x = f <;> simp [hx, hf, RowData.get_set]

/-! ## Classification loop lemmas -/

theorem classifyStep_manual (rowA rowB : RowData) (st : ClassifyState) (f : String) :
    (classifyStep rowA rowB st f).manualDiffFields
      = st.manualDiffFields ++ (if contestedField rowA rowB f then [f] else []) := by
  unfold classifyStep contestedField
  cases h : rowB.get f with
  | none => simp
  | some valB =>
    by_cases ha : isNullOrEmpty (rowA.getV f) <;>
      by_cases hb : isNullOrEmpty valB <;>
        simp [ha, hb]

theorem classifyStep_count (rowA rowB : RowData) (st : ClassifyState) (f : String) :
    (classifyStep rowA rowB st f).nullAutoFilled
      = st.nullAutoFilled + (if autoFillB rowA rowB f then 1 else 0) := by
  unfold classifyStep autoFillB
  cases h : rowB.get f with
  | none => simp
  | some valB =>
    by_cases ha : isNullOrEmpty (rowA.getV f) <;>
      by_cases hb : isNullOrEmpty valB <;>
        simp [ha, hb]

theorem classifyStep_merged_get (rowA rowB : RowData) (st : ClassifyState) (f x : String) :
    (classifyStep rowA rowB st f).merged.get x
      = if autoFillB rowA rowB f ∧ x = f then rowB.get x else st.merged.get x := by
  unfold classifyStep autoFillB
  cases h : rowB.get f with
  | none => simp
  | some valB =>
    by_cases ha : isNullOrEmpty (rowA.getV f) <;>
      by_cases hb : isNullOrEmpty valB <;>
        by_cases hx : x = f <;>
          simp [ha, hb, hx, RowData.get_set, h]

theorem classifyDiffs_manual (rowA rowB : RowData) (l : List String) (st : ClassifyState) :
    (classifyDiffs rowA rowB l st).manualDiffFields
      = st.manualDiffFields ++ l.filter (contestedField rowA rowB) := by
  induction l generalizing st with
  | nil => simp [classifyDiffs]
  | cons f l ih =>
    simp only [classifyDiffs, List.foldl_cons] at ih ⊢
    rw [ih, classifyStep_manual, List.filter_cons]
    by_cases hc : contestedField rowA rowB f <;> simp [hc]

theorem classifyDiffs_count (rowA rowB : RowData) (l : List String) (st : ClassifyState) :
    (classifyDiffs rowA rowB l st).nullAutoFilled
      = st.nullAutoFilled + (l.filter (autoFillB rowA rowB)).length := by
  induction l generalizing st with
  | nil => simp [classifyDiffs]
  | cons f l ih =>
    simp only [classifyDiffs, List.foldl_cons] at ih ⊢
    rw [ih, classifyStep_count, List.filter_cons]
    by_cases hc : autoFillB rowA rowB f <;> simp [hc] <;> omega

theorem classifyDiffs_merged_get (rowA rowB : RowData) (l : List String)
    (st : ClassifyState) (x : String) :
    (classifyDiffs rowA rowB l st).merged.get x
      = if autoFillB rowA rowB x ∧ x ∈ l then rowB.get x else st.merged.get x := by
  induction l generalizing st with
  | nil => simp [classifyDiffs]
  | cons f l ih =>
    simp only [classifyDiffs, List.foldl_cons] at ih ⊢
    rw [ih, classifyStep_merged_get]
    by_cases h1 : autoFillB rowA rowB x <;>
      by_cases h2 : x ∈ l <;>
        by_cases h3 : x = f <;>
          simp [h1, h2, h3] at * <;> simp_all

theorem overwriteWithB_get (rowB : RowData) (l : List String) (merged : RowData) (x : String) :
    (overwriteWithB rowB l merged).get x
      = if x ∈ l ∧ (rowB.get x).isSome then rowB.get x else merged.get x := by
  induction l generalizing merged with
  | nil => simp [overwriteWithB]
  | cons f l ih =>
    simp only [overwriteWithB, List.foldl_cons] at ih ⊢
    cases hf : rowB.get f with
    | none =>
      rw [ih]
      by_cases h2 : x ∈ l <;> by_cases h3 : x = f <;>
        simp [h2, h3, hf] <;> simp_all
    | some v =>
      rw [ih]
      by_cases h2 : x ∈ l <;> by_cases h3 : x = f <;>
        simp [h2, h3, hf, RowData.get_set] <;> simp_all

/-! ## Record builder lemmas -/

theorem buildCRowFromAWithMeta_get (m : Merger) (rowA : RowData) (source : String)
    (conflict : Bool) (diffFields : String) (x : String) :
    (m.buildCRowFromAWithMeta rowA source conflict diffFields).get x
      = if x = "_diff_fields" then some (if diffFields = "" then none else some diffFields)
        else if x = "_conflict" then some (some (if conflict then "1" else "0"))
        else if x = "_source" then some (some source)
        else if x ∈ m.fieldNamesC then some (rowA.getV x) else none := by
  unfold Merger.buildCRowFromAWithMeta
  by_cases hd : diffFields = "" <;>
    simp [hd, RowData.get_set, foldl_set_get] <;>
    split_ifs <;> simp_all

theorem buildCRowMerged_get (m : Merger) (merged : RowData) (source : String)
    (conflict : Bool) (diffFields : String) (x : String) :
    (m.buildCRowMerged merged source conflict diffFields).get x
      = if x = "_diff_fields" then some (if diffFields = "" then none else some diffFields)
        else if x = "_conflict" then some (some (if conflict then "1" else "0"))
        else if x = "_source" then some (some source)
        else if x ∈ m.fieldNamesC then some (merged.getV x) else none := by
  unfold Merger.buildCRowMerged
  by_cases hd : diffFields = "" <;>
    simp [hd, RowData.get_set, foldl_set_get] <;>
    split_ifs <;> simp_all

theorem buildCRowFromB_get (m : Merger) (rowB : RowData) (x : String) :
    (m.buildCRowFromB rowB).get x
      = if x = "_diff_fields" then some none
        else if x = "_conflict" then some (some "0")
        else if x = "_source" then some (some "B")
        else if x ∈ m.fieldNamesC then
          some (if m.ignoreSetB x then none
                else if m.bFieldInC x then rowB.getV x else none)
        else none := by
  unfold Merger.buildCRowFromB
  rw [RowData.get_set, RowData.get_set, RowData.get_set, foldl_set_get]
  by_cases h1 : x = "_diff_fields" <;> by_cases h2 : x = "_conflict" <;>
    by_cases h3 : x = "_source" <;> by_cases h4 : x ∈ m.fieldNamesC <;>
      cases hx : rowB.get x <;>
        simp [h1, h2, h3, h4, hx, RowData.getV]

/-! ## String join lemmas -/

theorem stringsJoin_length_ge (sep f : String) (l : List String) :
    f.length ≤ (stringsJoin sep (f :: l)).length := by
  cases l with
  | nil => simp [stringsJoin]
  | cons y ys =>
    simp only [stringsJoin, String.length_append]
    omega

theorem stringsJoin_ne_empty (sep f : String) (l : List String) (hf : f ≠ "") :
    stringsJoin sep (f :: l) ≠ "" := by
  intro h
  have h1 := stringsJoin_length_ge sep f l
  rw [h] at h1
  have h2 : f.length = 0 := Nat.le_zero.mp h1
  apply hf
  cases f with
  | mk data =>
    have h3 : data = [] := List.eq_nil_of_length_eq_zero h2
    subst h3
    rfl

/-! ## Diff computation lemmas -/

theorem mem_diffFieldsOf (m : Merger) (rowA rowB : RowData) (f : String) :
    f ∈ m.diffFieldsOf rowA rowB
      ↔ f ∈ m.compareFields ∧ m.ignoreSetB f = false
        ∧ ∃ valB, rowB.get f = some valB ∧ valuesEqual (rowA.getV f) valB = false := by
  unfold Merger.diffFieldsOf
  rw [List.mem_filter]
  cases hB : rowB.get f <;>
    by_cases hig : m.ignoreSetB f <;>
      simp [hig, hB]

theorem valuesEqual_iff (a b : Val) :
    valuesEqual a b = true
      ↔ (a = none ∧ b = none) ∨ ∃ s, a = some s ∧ b = some s := by
  cases a <;> cases b <;> simp [valuesEqual]
  exact eq_comm

/-! ## compareAndMerge case lemmas -/

theorem compareAndMerge_exact (m : Merger) (rowA rowB : RowData) (stats : MergeStats)
    (stdin : List (Option String)) (h : m.diffFieldsOf rowA rowB = []) :
    m.compareAndMerge rowA rowB stats stdin
      = ⟨m.buildCRowFromAWithMeta rowA "A" false "",
         { stats with ExactMatch := stats.ExactMatch + 1 }, stdin⟩ := by
  simp only [Merger.compareAndMerge]
  rw [if_pos h]

theorem compareAndMerge_autoOnly (m : Merger) (rowA rowB : RowData) (stats : MergeStats)
    (stdin : List (Option String)) (hne : ¬ m.diffFieldsOf rowA rowB = [])
    (hman : (classifyDiffs rowA rowB (m.diffFieldsOf rowA rowB)
        ⟨m.mergedBase rowA, [], 0⟩).manualDiffFields = []) :
    m.compareAndMerge rowA rowB stats stdin
      = ⟨m.buildCRowMerged
           (classifyDiffs rowA rowB (m.diffFieldsOf rowA rowB)
             ⟨m.mergedBase rowA, [], 0⟩).merged
           "MERGE_A" true (stringsJoin "," (m.diffFieldsOf rowA rowB)),
         { stats with Conflict := stats.Conflict + 1,
                      NullAutoFilled := stats.NullAutoFilled
                        + (classifyDiffs rowA rowB (m.diffFieldsOf rowA rowB)
                            ⟨m.mergedBase rowA, [], 0⟩).nullAutoFilled },
         stdin⟩ := by
  simp only [Merger.compareAndMerge]
  rw [if_neg hne, if_pos hman]

theorem compareAndMerge_useA (m : Merger) (rowA rowB : RowData) (stats : MergeStats)
    (stdin : List (Option String)) (hne : ¬ m.diffFieldsOf rowA rowB = [])
    (hman : ¬ (classifyDiffs rowA rowB (m.diffFieldsOf rowA rowB)
        ⟨m.mergedBase rowA, [], 0⟩).manualDiffFields = [])
    (hc : (resolveChoice m stdin).1 = UseA) :
    m.compareAndMerge rowA rowB stats stdin
      = ⟨m.buildCRowMerged
           (classifyDiffs rowA rowB (m.diffFieldsOf rowA rowB)
             ⟨m.mergedBase rowA, [], 0⟩).merged
           "MERGE_A" true (stringsJoin "," (m.diffFieldsOf rowA rowB)),
         { stats with Conflict := stats.Conflict + 1,
                      NullAutoFilled := stats.NullAutoFilled
                        + (classifyDiffs rowA rowB (m.diffFieldsOf rowA rowB)
                            ⟨m.mergedBase rowA, [], 0⟩).nullAutoFilled,
                      ConflictUseA := stats.ConflictUseA + 1 },
         (resolveChoice m stdin).2⟩ := by
  simp only [Merger.compareAndMerge]
  rw [if_neg hne, if_neg hman, if_pos hc]

theorem compareAndMerge_useB (m : Merger) (rowA rowB : RowData) (stats : MergeStats)
    (stdin : List (Option String)) (hne : ¬ m.diffFieldsOf rowA rowB = [])
    (hman : ¬ (classifyDiffs rowA rowB (m.diffFieldsOf rowA rowB)
        ⟨m.mergedBase rowA, [], 0⟩).manualDiffFields = [])
    (hc : ¬ (resolveChoice m stdin).1 = UseA) :
    m.compareAndMerge rowA rowB stats stdin
      = ⟨m.buildCRowMerged
           (overwriteWithB rowB
             (classifyDiffs rowA rowB (m.diffFieldsOf rowA rowB)
               ⟨m.mergedBase rowA, [], 0⟩).manualDiffFields
             (classifyDiffs rowA rowB (m.diffFieldsOf rowA rowB)
               ⟨m.mergedBase rowA, [], 0⟩).merged)
           "MERGE_B" true (stringsJoin "," (m.diffFieldsOf rowA rowB)),
         { stats with Conflict := stats.Conflict + 1,
                      NullAutoFilled := stats.NullAutoFilled
                        + (classifyDiffs rowA rowB (m.diffFieldsOf rowA rowB)
                            ⟨m.mergedBase rowA, [], 0⟩).nullAutoFilled,
                      ConflictUseB := stats.ConflictUseB + 1 },
         (resolveChoice m stdin).2⟩ := by
  simp only [Merger.compareAndMerge]
  rw [if_neg hne, if_neg hman, if_neg hc]

/-! ## Classification facts feeding the claims -/

theorem contested_isSome (rowA rowB : RowData) (f : String)
    (h : contestedField rowA rowB f = true) : (rowB.get f).isSome := by
  unfold contestedField at h
  cases hB : rowB.get f <;> simp [hB] at h ⊢

theorem autoFill_not_contested (rowA rowB : RowData) (f : String)
    (h : autoFillB rowA rowB f = true) : contestedField rowA rowB f = false := by
  unfold autoFillB at h
  unfold contestedField
  cases hB : rowB.get f <;> simp [hB] at h ⊢
  simp [h.1, h.2]

theorem autoKeep_not_contested (rowA rowB : RowData) (f : String)
    (h : autoKeepA rowA rowB f = true) : contestedField rowA rowB f = false := by
  unfold autoKeepA at h
  unfold contestedField
  cases hB : rowB.get f <;> simp [hB] at h ⊢
  simp [h.1, h.2]

theorem autoKeep_not_autoFill (rowA rowB : RowData) (f : String)
    (h : autoKeepA rowA rowB f = true) : autoFillB rowA rowB f = false := by
  unfold autoKeepA at h
  unfold autoFillB
  cases hB : rowB.get f <;> simp [hB] at h ⊢
  simp [h.1]

theorem cmClassify_manual (m : Merger) (rowA rowB : RowData) :
    (cmClassify m rowA rowB).manualDiffFields
      = (m.diffFieldsOf rowA rowB).filter (contestedField rowA rowB) := by
  unfold cmClassify
  rw [classifyDiffs_manual]
  rfl

theorem cmClassify_count (m : Merger) (rowA rowB : RowData) :
    (cmClassify m rowA rowB).nullAutoFilled
      = ((m.diffFieldsOf rowA rowB).filter (autoFillB rowA rowB)).length := by
  unfold cmClassify
  rw [classifyDiffs_count]
  simp

theorem diffFields_subset_fieldNamesC (m : Merger) (rowA rowB : RowData) (f : String)
    (h : f ∈ m.diffFieldsOf rowA rowB) : f ∈ m.fieldNamesC := by
  have h1 := ((mem_diffFieldsOf m rowA rowB f).mp h).1
  unfold Merger.compareFields at h1
  exact (List.mem_filter.mp h1).1

theorem cmClassify_merged_getV (m : Merger) (rowA rowB : RowData) (x : String)
    (hx : x ∈ m.fieldNamesC) :
    (cmClassify m rowA rowB).merged.getV x
      = if autoFillB rowA rowB x ∧ x ∈ m.diffFieldsOf rowA rowB
        then rowB.getV x else rowA.getV x := by
  unfold cmClassify
  unfold RowData.getV
  rw [classifyDiffs_merged_get]
  by_cases h : autoFillB rowA rowB x ∧ x ∈ m.diffFieldsOf rowA rowB <;>
    simp [h, Merger.mergedBase, foldl_set_get, hx, RowData.getV]

theorem overwrite_getV (rowB : RowData) (l : List String) (merged : RowData) (x : String) :
    (overwriteWithB rowB l merged).getV x
      = if x ∈ l ∧ (rowB.get x).isSome then rowB.getV x else merged.getV x := by
  unfold RowData.getV
  rw [overwriteWithB_get]
  by_cases h : x ∈ l ∧ (rowB.get x).isSome <;> simp [h]

theorem cm_stats_nullAutoFilled (m : Merger) (rowA rowB : RowData) (stats : MergeStats)
    (stdin : List (Option String)) (hne : ¬ m.diffFieldsOf rowA rowB = []) :
    (m.compareAndMerge rowA rowB stats stdin).stats.NullAutoFilled
      = stats.NullAutoFilled + ((m.diffFieldsOf rowA rowB).filter (autoFillB rowA rowB)).length := by
  have hEq : classifyDiffs rowA rowB (m.diffFieldsOf rowA rowB)
      (⟨m.mergedBase rowA, [], 0⟩ : ClassifyState) = cmClassify m rowA rowB := rfl
  have hcnt := cmClassify_count m rowA rowB
  by_cases hman : (classifyDiffs rowA rowB (m.diffFieldsOf rowA rowB)
      (⟨m.mergedBase rowA, [], 0⟩ : ClassifyState)).manualDiffFields = []
  · rw [compareAndMerge_autoOnly m rowA rowB stats stdin hne hman]
    simp [hEq, hcnt]
  · by_cases hc : (resolveChoice m stdin).1 = UseA
    · rw [compareAndMerge_useA m rowA rowB stats stdin hne hman hc]
      simp [hEq, hcnt]
    · rw [compareAndMerge_useB m rowA rowB stats stdin hne hman hc]
      simp [hEq, hcnt]

theorem cm_row_get_business (m : Merger) (rowA rowB : RowData) (stats : MergeStats)
    (stdin : List (Option String)) (hne : ¬ m.diffFieldsOf rowA rowB = []) (x : String)
    (hx : x ∈ m.fieldNamesC) (h1 : x ≠ "_source") (h2 : x ≠ "_conflict")
    (h3 : x ≠ "_diff_fields") :
    (m.compareAndMerge rowA rowB stats stdin).row.get x
      = some (
          if x ∈ (cmClassify m rowA rowB).manualDiffFields
              ∧ ¬ (cmClassify m rowA rowB).manualDiffFields = []
              ∧ ¬ (resolveChoice m stdin).1 = UseA
            then rowB.getV x
          else if autoFillB rowA rowB x ∧ x ∈ m.diffFieldsOf rowA rowB
            then rowB.getV x
          else rowA.getV x) := by
  have hEq : classifyDiffs rowA rowB (m.diffFieldsOf rowA rowB)
      (⟨m.mergedBase rowA, [], 0⟩ : ClassifyState) = cmClassify m rowA rowB := rfl
  have hmem : ∀ y ∈ (cmClassify m rowA rowB).manualDiffFields, (rowB.get y).isSome := by
    intro y hy
    rw [cmClassify_manual] at hy
    exact contested_isSome rowA rowB y (List.mem_filter.mp hy).2
  by_cases hman : (cmClassify m rowA rowB).manualDiffFields = []
  · rw [compareAndMerge_autoOnly m rowA rowB stats stdin hne (by rw [hEq]; exact hman)]
    rw [buildCRowMerged_get, hEq, cmClassify_merged_getV m rowA rowB x hx]
    simp [h1, h2, h3, hx, hman]
  · by_cases hc : (resolveChoice m stdin).1 = UseA
    · rw [compareAndMerge_useA m rowA rowB stats stdin hne (by rw [hEq]; exact hman) hc]
      rw [buildCRowMerged_get, hEq, cmClassify_merged_getV m rowA rowB x hx]
      simp [h1, h2, h3, hx, hc]
    · rw [compareAndMerge_useB m rowA rowB stats stdin hne (by rw [hEq]; exact hman) hc]
      rw [buildCRowMerged_get, hEq]
      by_cases hxm : x ∈ (cmClassify m rowA rowB).manualDiffFields
      · have hs : (rowB.get x).isSome := hmem x hxm
        rw [overwrite_getV]
        simp [h1, h2, h3, hx, hc, hman, hxm, hs]
      · rw [overwrite_getV]
        simp only [hxm, false_and, if_false]
        rw [cmClassify_merged_getV m rowA rowB x hx]
        simp [h1, h2, h3, hx, hc, hman, hxm]

theorem diffStr_ne_empty (m : Merger) (rowA rowB : RowData)
    (hne : m.diffFieldsOf rowA rowB ≠ [])
    (hnz : ∀ g ∈ m.compareFields, g ≠ "") :
    stringsJoin "," (m.diffFieldsOf rowA rowB) ≠ "" := by
  cases hd : m.diffFieldsOf rowA rowB with
  | nil => exact absurd hd hne
  | cons f l =>
    apply stringsJoin_ne_empty
    apply hnz
    have hf : f ∈ m.diffFieldsOf rowA rowB := by
      rw [hd]; exact List.mem_cons_self f l
    exact ((mem_diffFieldsOf m rowA rowB f).mp hf).1

/-! ## Claim theorems -/

/-- Claim C1: for a matched pair, the differing-field list computed by
compareAndMerge is exactly the comparison fields (kept in
comparison-field order) that are not in B's ignore list, are present on
rowB, and whose values are unequal under valuesEqual; two values are
equal iff both are NULL or both non-NULL and textually identical, so
NULL is never equal to the empty string; zero differing fields yields an
exact-match record with source "A", conflict "0", NULL diff_fields, and
the exact-match counter stepped. -/
theorem diff_engine_spec (m : Merger) (rowA rowB : RowData)
    (stats : MergeStats) (stdin : List (Option String)) :
    (m.diffFieldsOf rowA rowB).Sublist m.compareFields
    ∧ (∀ f, f ∈ m.diffFieldsOf rowA rowB
        ↔ f ∈ m.compareFields ∧ m.ignoreSetB f = false
          ∧ ∃ valB, rowB.get f = some valB ∧ valuesEqual (rowA.getV f) valB = false)
    ∧ (∀ a b : Val, valuesEqual a b = true
        ↔ (a = none ∧ b = none) ∨ ∃ s, a = some s ∧ b = some s)
    ∧ valuesEqual none (some "") = false
    ∧ (m.diffFieldsOf rowA rowB = [] →
        ((m.compareAndMerge rowA rowB stats stdin).row.get "_source" = some (some "A")
         ∧ (m.compareAndMerge rowA rowB stats stdin).row.get "_conflict" = some (some "0")
         ∧ (m.compareAndMerge rowA rowB stats stdin).row.get "_diff_fields" = some none
         ∧ (m.compareAndMerge rowA rowB stats stdin).stats
             = { stats with ExactMatch := stats.ExactMatch + 1 })) := by
  refine ⟨?_, mem_diffFieldsOf m rowA rowB, valuesEqual_iff, rfl, ?_⟩
  · unfold Merger.diffFieldsOf
    exact List.filter_sublist _
  · intro h
    rw [compareAndMerge_exact m rowA rowB stats stdin h]
    refine ⟨?_, ?_, ?_, rfl⟩ <;> rw [buildCRowFromAWithMeta_get] <;> simp

/-- Concrete instance of the C1 theorem: an exactly matching pair. -/
theorem diff_engine_spec_witness :
    (Merger.mk ["k"] [] [] ConflictStrategy.UseA 2 ["k", "x"] ["k", "x"]).diffFieldsOf
        (RowData.mk [("k", some "1"), ("x", some "a")])
        (RowData.mk [("k", some "1"), ("x", some "a")]) = []
    ∧ ((Merger.mk ["k"] [] [] ConflictStrategy.UseA 2 ["k", "x"] ["k", "x"]).compareAndMerge
        (RowData.mk [("k", some "1"), ("x", some "a")])
        (RowData.mk [("k", some "1"), ("x", some "a")]) {} []).row.get "_source"
        = some (some "A") := by
  refine ⟨by decide, ?_⟩
  exact ((diff_engine_spec (Merger.mk ["k"] [] [] ConflictStrategy.UseA 2 ["k", "x"] ["k", "x"])
    (RowData.mk [("k", some "1"), ("x", some "a")])
    (RowData.mk [("k", some "1"), ("x", some "a")]) {} []).2.2.2.2 (by decide)).1

/-- Claim C3: a matched pair with differences but no contested field
yields a MERGE_A record with conflict "1" and the comma-joined list of
all differing fields; no policy decision is made: neither
resolved-toward counter moves and the interactive stream is not
consumed. -/
theorem auto_resolved_only_spec (m : Merger) (rowA rowB : RowData) (stats : MergeStats)
    (stdin : List (Option String))
    (hnz : ∀ g ∈ m.compareFields, g ≠ "")
    (hne : ¬ m.diffFieldsOf rowA rowB = [])
    (hman : (cmClassify m rowA rowB).manualDiffFields = []) :
    (m.compareAndMerge rowA rowB stats stdin).row.get "_source" = some (some "MERGE_A")
    ∧ (m.compareAndMerge rowA rowB stats stdin).row.get "_conflict" = some (some "1")
    ∧ (m.compareAndMerge rowA rowB stats stdin).row.get "_diff_fields"
        = some (some (stringsJoin "," (m.diffFieldsOf rowA rowB)))
    ∧ (m.compareAndMerge rowA rowB stats stdin).stats.ConflictUseA = stats.ConflictUseA
    ∧ (m.compareAndMerge rowA rowB stats stdin).stats.ConflictUseB = stats.ConflictUseB
    ∧ (m.compareAndMerge rowA rowB stats stdin).stdin = stdin := by
  have hEq : classifyDiffs rowA rowB (m.diffFieldsOf rowA rowB)
      (⟨m.mergedBase rowA, [], 0⟩ : ClassifyState) = cmClassify m rowA rowB := rfl
  have hjoin := diffStr_ne_empty m rowA rowB hne hnz
  rw [compareAndMerge_autoOnly m rowA rowB stats stdin hne (by rw [hEq]; exact hman)]
  refine ⟨?_, ?_, ?_, rfl, rfl, rfl⟩ <;> rw [buildCRowMerged_get] <;> simp [hjoin]

/-- Concrete instance of the C3 theorem: one auto-filled difference. -/
theorem auto_resolved_only_spec_witness :
    ((Merger.mk ["k"] [] [] ConflictStrategy.UseA 2 ["k", "x"] ["k", "x"]).compareAndMerge
        (RowData.mk [("k", some "1"), ("x", none)])
        (RowData.mk [("k", some "1"), ("x", some "v")]) {} []).row.get "_source"
      = some (some "MERGE_A")
    ∧ ((Merger.mk ["k"] [] [] ConflictStrategy.UseA 2 ["k", "x"] ["k", "x"]).compareAndMerge
        (RowData.mk [("k", some "1"), ("x", none)])
        (RowData.mk [("k", some "1"), ("x", some "v")]) {} []).row.get "_conflict"
      = some (some "1") := by
  have h := auto_resolved_only_spec
    (Merger.mk ["k"] [] [] ConflictStrategy.UseA 2 ["k", "x"] ["k", "x"])
    (RowData.mk [("k", some "1"), ("x", none)])
    (RowData.mk [("k", some "1"), ("x", some "v")]) {} []
    (by decide) (by decide) (by decide)
  exact ⟨h.1, h.2.1⟩

/-- Claim C4: a differing field with A's value NULL/empty and B's value
neither is automatically given B's value in the output record,
independently of strategy and contested-field resolution, and the
auto-fill counter grows by one per such field; symmetrically, a
differing field with B's value NULL/empty and A's neither keeps A's
value. -/
theorem auto_fill_spec (m : Merger) (rowA rowB : RowData) (stats : MergeStats)
    (stdin : List (Option String)) (f : String)
    (hmf : m.metaFree) (hfd : f ∈ m.diffFieldsOf rowA rowB) :
    (autoFillB rowA rowB f = true →
       (m.compareAndMerge rowA rowB stats stdin).row.get f = some (rowB.getV f))
    ∧ (autoKeepA rowA rowB f = true →
       (m.compareAndMerge rowA rowB stats stdin).row.get f = some (rowA.getV f))
    ∧ (m.compareAndMerge rowA rowB stats stdin).stats.NullAutoFilled
        = stats.NullAutoFilled
          + ((m.diffFieldsOf rowA rowB).filter (autoFillB rowA rowB)).length := by
  have hne : ¬ m.diffFieldsOf rowA rowB = [] := by
    intro h; rw [h] at hfd; exact absurd hfd (List.not_mem_nil f)
  have hx : f ∈ m.fieldNamesC := diffFields_subset_fieldNamesC m rowA rowB f hfd
  obtain ⟨hm1, hm2, hm3⟩ := hmf
  have h1 : f ≠ "_source" := fun h => hm1 (h ▸ hx)
  have h2 : f ≠ "_conflict" := fun h => hm2 (h ▸ hx)
  have h3 : f ≠ "_diff_fields" := fun h => hm3 (h ▸ hx)
  have hrow := cm_row_get_business m rowA rowB stats stdin hne f hx h1 h2 h3
  refine ⟨?_, ?_, cm_stats_nullAutoFilled m rowA rowB stats stdin hne⟩
  · intro hauto
    rw [hrow]
    have hnotman : f ∉ (cmClassify m rowA rowB).manualDiffFields := by
      rw [cmClassify_manual]
      intro hmem
      have hcc := (List.mem_filter.mp hmem).2
      rw [autoFill_not_contested rowA rowB f hauto] at hcc
      exact Bool.false_ne_true hcc
    simp [hnotman, hauto, hfd]
  · intro hkeep
    rw [hrow]
    have hnotman : f ∉ (cmClassify m rowA rowB).manualDiffFields := by
      rw [cmClassify_manual]
      intro hmem
      have hcc := (List.mem_filter.mp hmem).2
      rw [autoKeep_not_contested rowA rowB f hkeep] at hcc
      exact Bool.false_ne_true hcc
    have hnotfill : autoFillB rowA rowB f = false := autoKeep_not_autoFill rowA rowB f hkeep
    simp [hnotman, hnotfill]

/-- Concrete instance of the C4 theorem: NULL on A auto-filled from B. -/
theorem auto_fill_spec_witness :
    (autoFillB (RowData.mk [("k", some "1"), ("x", none)])
        (RowData.mk [("k", some "1"), ("x", some "v")]) "x" = true →
      ((Merger.mk ["k"] [] [] ConflictStrategy.UseA 2 ["k", "x"] ["k", "x"]).compareAndMerge
          (RowData.mk [("k", some "1"), ("x", none)])
          (RowData.mk [("k", some "1"), ("x", some "v")]) {} []).row.get "x"
        = some ((RowData.mk [("k", some "1"), ("x", some "v")]).getV "x"))
    ∧ (autoKeepA (RowData.mk [("k", some "1"), ("x", none)])
        (RowData.mk [("k", some "1"), ("x", some "v")]) "x" = true →
      ((Merger.mk ["k"] [] [] ConflictStrategy.UseA 2 ["k", "x"] ["k", "x"]).compareAndMerge
          (RowData.mk [("k", some "1"), ("x", none)])
          (RowData.mk [("k", some "1"), ("x", some "v")]) {} []).row.get "x"
        = some ((RowData.mk [("k", some "1"), ("x", none)]).getV "x"))
    ∧ ((Merger.mk ["k"] [] [] ConflictStrategy.UseA 2 ["k", "x"] ["k", "x"]).compareAndMerge
          (RowData.mk [("k", some "1"), ("x", none)])
          (RowData.mk [("k", some "1"), ("x", some "v")]) {} []).stats.NullAutoFilled
        = (MergeStats.mk 0 0 0 0 0 0 0 0 0 0).NullAutoFilled
          + (((Merger.mk ["k"] [] [] ConflictStrategy.UseA 2 ["k", "x"] ["k", "x"]).diffFieldsOf
              (RowData.mk [("k", some "1"), ("x", none)])
              (RowData.mk [("k", some "1"), ("x", some "v")])).filter
              (autoFillB (RowData.mk [("k", some "1"), ("x", none)])
                (RowData.mk [("k", some "1"), ("x", some "v")]))).length := by
  exact auto_fill_spec
    (Merger.mk ["k"] [] [] ConflictStrategy.UseA 2 ["k", "x"] ["k", "x"])
    (RowData.mk [("k", some "1"), ("x", none)])
    (RowData.mk [("k", some "1"), ("x", some "v")])
    (MergeStats.mk 0 0 0 0 0 0 0 0 0 0) [] "x"
    (by constructor <;> [decide; constructor <;> decide]) (by decide)

/-- Claim C5: a differing field with NULL on one side and the empty
string on the other is contested: it joins the manual list resolved by
the per-entity policy decision, is not auto-filled, and never counts
toward the auto-fill counter. -/
theorem null_vs_empty_contested (m : Merger) (rowA rowB : RowData) (f : String)
    (hmem : f ∈ m.compareFields) (hig : m.ignoreSetB f = false)
    (h : (rowA.getV f = none ∧ rowB.get f = some (some ""))
       ∨ (rowA.getV f = some "" ∧ rowB.get f = some none)) :
    f ∈ m.diffFieldsOf rowA rowB
    ∧ contestedField rowA rowB f = true
    ∧ autoFillB rowA rowB f = false
    ∧ f ∈ (cmClassify m rowA rowB).manualDiffFields
    ∧ (∀ stats stdin,
        (m.compareAndMerge rowA rowB stats stdin).stats.NullAutoFilled
          = stats.NullAutoFilled
            + ((m.diffFieldsOf rowA rowB).filter (autoFillB rowA rowB)).length) := by
  have hdiff : f ∈ m.diffFieldsOf rowA rowB := by
    rw [mem_diffFieldsOf]
    rcases h with ⟨ha, hb⟩ | ⟨ha, hb⟩
    · exact ⟨hmem, hig, some "", hb, by rw [ha]; rfl⟩
    · exact ⟨hmem, hig, none, hb, by rw [ha]; rfl⟩
  have hcont : contestedField rowA rowB f = true := by
    unfold contestedField
    rcases h with ⟨ha, hb⟩ | ⟨ha, hb⟩ <;> rw [hb, ha] <;> decide
  have hfill : autoFillB rowA rowB f = false := by
    unfold autoFillB
    rcases h with ⟨ha, hb⟩ | ⟨ha, hb⟩ <;> rw [hb, ha] <;> decide
  refine ⟨hdiff, hcont, hfill, ?_, ?_⟩
  · rw [cmClassify_manual]
    exact List.mem_filter.mpr ⟨hdiff, hcont⟩
  · intro stats stdin
    apply cm_stats_nullAutoFilled
    intro hh
    rw [hh] at hdiff
    exact absurd hdiff (List.not_mem_nil f)

/-- Concrete instance of the C5 theorem: NULL on A versus "" on B. -/
theorem null_vs_empty_contested_witness :
    "x" ∈ (Merger.mk ["k"] [] [] ConflictStrategy.UseA 2 ["k", "x"] ["k", "x"]).diffFieldsOf
        (RowData.mk [("k", some "1"), ("x", none)])
        (RowData.mk [("k", some "1"), ("x", some "")])
    ∧ contestedField (RowData.mk [("k", some "1"), ("x", none)])
        (RowData.mk [("k", some "1"), ("x", some "")]) "x" = true
    ∧ autoFillB (RowData.mk [("k", some "1"), ("x", none)])
        (RowData.mk [("k", some "1"), ("x", some "")]) "x" = false
    ∧ "x" ∈ (cmClassify (Merger.mk ["k"] [] [] ConflictStrategy.UseA 2 ["k", "x"] ["k", "x"])
        (RowData.mk [("k", some "1"), ("x", none)])
        (RowData.mk [("k", some "1"), ("x", some "")])).manualDiffFields := by
  have h := null_vs_empty_contested
    (Merger.mk ["k"] [] [] ConflictStrategy.UseA 2 ["k", "x"] ["k", "x"])
    (RowData.mk [("k", some "1"), ("x", none)])
    (RowData.mk [("k", some "1"), ("x", some "")]) "x"
    (by decide) (by decide) (Or.inl (by exact ⟨by decide, by decide⟩))
  exact ⟨h.1, h.2.1, h.2.2.1, h.2.2.2.1⟩

/-- Claim C2: when the per-entity decision is B (strategy UseB, or the
interactive choice resolves to B), contested fields take B's value,
auto-filled fields keep their already-resolved B value, every other
output field keeps A's value; the record is MERGE_B with conflict "1"
and the comma-joined list of all differing fields, and the
resolved-toward-B counter steps by one while resolved-toward-A does
not. -/
theorem prefer_b_resolution_spec (m : Merger) (rowA rowB : RowData) (stats : MergeStats)
    (stdin : List (Option String))
    (hmf : m.metaFree)
    (hnz : ∀ g ∈ m.compareFields, g ≠ "")
    (hman : ¬ (cmClassify m rowA rowB).manualDiffFields = [])
    (hc : (resolveChoice m stdin).1 = UseB) :
    (∀ f ∈ m.fieldNamesC,
       (m.compareAndMerge rowA rowB stats stdin).row.get f
         = some (if f ∈ (cmClassify m rowA rowB).manualDiffFields then rowB.getV f
                 else if autoFillB rowA rowB f ∧ f ∈ m.diffFieldsOf rowA rowB then rowB.getV f
                 else rowA.getV f))
    ∧ (m.compareAndMerge rowA rowB stats stdin).row.get "_source" = some (some "MERGE_B")
    ∧ (m.compareAndMerge rowA rowB stats stdin).row.get "_conflict" = some (some "1")
    ∧ (m.compareAndMerge rowA rowB stats stdin).row.get "_diff_fields"
        = some (some (stringsJoin "," (m.diffFieldsOf rowA rowB)))
    ∧ (m.compareAndMerge rowA rowB stats stdin).stats.ConflictUseB = stats.ConflictUseB + 1
    ∧ (m.compareAndMerge rowA rowB stats stdin).stats.ConflictUseA = stats.ConflictUseA := by
  have hEq : classifyDiffs rowA rowB (m.diffFieldsOf rowA rowB)
      (⟨m.mergedBase rowA, [], 0⟩ : ClassifyState) = cmClassify m rowA rowB := rfl
  have hne : ¬ m.diffFieldsOf rowA rowB = [] := by
    intro h0
    apply hman
    unfold cmClassify
    rw [h0]
    rfl
  have hcA : ¬ (resolveChoice m stdin).1 = UseA := by
    rw [hc]
    intro hAB
    exact ConflictStrategy.noConfusion hAB
  have hjoin := diffStr_ne_empty m rowA rowB hne hnz
  refine ⟨?_, ?_, ?_, ?_, ?_, ?_⟩
  · intro f hf
    obtain ⟨hm1, hm2, hm3⟩ := hmf
    have h1 : f ≠ "_source" := fun h => hm1 (h ▸ hf)
    have h2 : f ≠ "_conflict" := fun h => hm2 (h ▸ hf)
    have h3 : f ≠ "_diff_fields" := fun h => hm3 (h ▸ hf)
    rw [cm_row_get_business m rowA rowB stats stdin hne f hf h1 h2 h3]
    by_cases hfm : f ∈ (cmClassify m rowA rowB).manualDiffFields <;>
      simp [hfm, hman, hcA]
  · rw [compareAndMerge_useB m rowA rowB stats stdin hne (by rw [hEq]; exact hman) hcA,
        buildCRowMerged_get]
    simp
  · rw [compareAndMerge_useB m rowA rowB stats stdin hne (by rw [hEq]; exact hman) hcA,
        buildCRowMerged_get]
    simp
  · rw [compareAndMerge_useB m rowA rowB stats stdin hne (by rw [hEq]; exact hman) hcA,
        buildCRowMerged_get]
    simp [hjoin]
  · rw [compareAndMerge_useB m rowA rowB stats stdin hne (by rw [hEq]; exact hman) hcA]
  · rw [compareAndMerge_useB m rowA rowB stats stdin hne (by rw [hEq]; exact hman) hcA]

/-- Concrete instance of the C2 theorem: strategy UseB, one contested
field "x" and one auto-filled field "y". -/
theorem prefer_b_resolution_spec_witness :
    ((Merger.mk ["k"] [] [] ConflictStrategy.UseB 2 ["k", "x", "y"] ["k", "x", "y"]).compareAndMerge
        (RowData.mk [("k", some "1"), ("x", some "a"), ("y", none)])
        (RowData.mk [("k", some "1"), ("x", some "b"), ("y", some "c")]) {} []).row.get "x"
      = some (some "b")
    ∧ ((Merger.mk ["k"] [] [] ConflictStrategy.UseB 2 ["k", "x", "y"] ["k", "x", "y"]).compareAndMerge
        (RowData.mk [("k", some "1"), ("x", some "a"), ("y", none)])
        (RowData.mk [("k", some "1"), ("x", some "b"), ("y", some "c")]) {} []).row.get "y"
      = some (some "c")
    ∧ ((Merger.mk ["k"] [] [] ConflictStrategy.UseB 2 ["k", "x", "y"] ["k", "x", "y"]).compareAndMerge
        (RowData.mk [("k", some "1"), ("x", some "a"), ("y", none)])
        (RowData.mk [("k", some "1"), ("x", some "b"), ("y", some "c")]) {} []).row.get "_source"
      = some (some "MERGE_B")
    ∧ ((Merger.mk ["k"] [] [] ConflictStrategy.UseB 2 ["k", "x", "y"] ["k", "x", "y"]).compareAndMerge
        (RowData.mk [("k", some "1"), ("x", some "a"), ("y", none)])
        (RowData.mk [("k", some "1"), ("x", some "b"), ("y", some "c")]) {} []).stats.ConflictUseB
      = 1 := by
  have h := prefer_b_resolution_spec
    (Merger.mk ["k"] [] [] ConflictStrategy.UseB 2 ["k", "x", "y"] ["k", "x", "y"])
    (RowData.mk [("k", some "1"), ("x", some "a"), ("y", none)])
    (RowData.mk [("k", some "1"), ("x", some "b"), ("y", some "c")]) {} []
    ⟨by decide, by decide, by decide⟩ (by decide) (by decide) (by decide)
  have hx := h.1 "x" (by decide)
  have hy := h.1 "y" (by decide)
  rw [hx, hy]
  refine ⟨by decide, by decide, h.2.1, ?_⟩
  rw [h.2.2.2.2.1]

theorem buildBIndexAux (m : Merger) (dataB : List RowData) (init : List (String × RowData)) :
    dataB.foldl (fun idx r => (m.buildKey r, r) :: idx) init
      = (dataB.reverse.map (fun r => (m.buildKey r, r))) ++ init := by
  induction dataB generalizing init with
  | nil => simp
  | cons r rs ih => simp [ih]

theorem lookup_map_key (m : Merger) (l : List RowData) (k : String) :
    List.lookup k (l.map (fun r => (m.buildKey r, r)))
      = l.find? (fun r => m.buildKey r == k) := by
  induction l with
  | nil => rfl
  | cons r rs ih =>
    by_cases h : k = m.buildKey r
    · simp [List.lookup, List.find?, h]
    · have hb1 : (k == m.buildKey r) = false := beq_eq_false_iff_ne.mpr h
      have hb2 : (m.buildKey r == k) = false := beq_eq_false_iff_ne.mpr (Ne.symm h)
      simp [List.lookup, List.find?, hb1, hb2, ih]

/-- Claim C6: B's key index maps every key to exactly the last loaded
row bearing that key (lookup order equals reverse load order), so
earlier duplicate rows are unreachable through the index used for
matching. -/
theorem bindex_last_write_wins (m : Merger) (dataB : List RowData) (k : String) :
    (m.buildBIndex dataB).lookup k
      = dataB.reverse.find? (fun r => m.buildKey r == k) := by
  unfold Merger.buildBIndex
  rw [buildBIndexAux, List.append_nil, lookup_map_key]

/-- Claim C8: the interactive per-entity choice is decided by the first
line that reads as an error (defaulting to A, non-fatally) or
normalizes (trim, uppercase) to "A" or "B"; any other line only
re-prompts. -/
theorem ask_user_choice_spec :
    (∀ stream, (askUserChoice stream).1 = (stream.findSome? lineChoice).getD UseA)
    ∧ (∀ s rest, goNormalize s = "A" → askUserChoice (some s :: rest) = (UseA, rest))
    ∧ (∀ s rest, goNormalize s = "B" → askUserChoice (some s :: rest) = (UseB, rest))
    ∧ (∀ s rest, goNormalize s ≠ "A" → goNormalize s ≠ "B" →
        askUserChoice (some s :: rest) = askUserChoice rest)
    ∧ (∀ rest, askUserChoice (none :: rest) = (UseA, rest))
    ∧ askUserChoice [] = (UseA, []) := by
  refine ⟨?_, ?_, ?_, ?_, ?_, rfl⟩
  · intro stream
    induction stream with
    | nil => rfl
    | cons line rest ih =>
      cases line with
      | none => rfl
      | some s =>
        by_cases hA : goNormalize s = "A"
        · simp [askUserChoice, lineChoice, hA]
        · by_cases hB : goNormalize s = "B" <;>
            simp [askUserChoice, lineChoice, hA, hB, ih]
  · intro s rest h
    simp [askUserChoice, h]
  · intro s rest h
    simp [askUserChoice, h]
  · intro s rest hA hB
    simp [askUserChoice, hA, hB]
  · intro rest
    rfl

/-- Concrete instance of the C8 theorem: an invalid line re-prompts, a
"b" line picks B, an error line defaults to A. -/
theorem ask_user_choice_spec_witness :
    askUserChoice [some " junk ", some " b "] = (UseB, [])
    ∧ (askUserChoice [none]).1 = UseA := by
  have h := ask_user_choice_spec
  refine ⟨?_, ?_⟩
  · rw [h.2.2.2.1 " junk " _ (by decide) (by decide)]
    exact h.2.2.1 " b " [] (by decide)
  · rw [h.1 [none]]
    rfl

/-! ## Batch insertion lemmas -/

theorem ceil_step (n bs : Nat) (hbs : 0 < bs) (hn : 1 ≤ n) :
    (n + bs - 1) / bs = ((n - bs) + bs - 1) / bs + 1 := by
  have h1 : n + bs - 1 = (n - 1) + bs := by omega
  rw [h1, Nat.add_div_right _ hbs]
  by_cases h : n ≤ bs
  · have h2 : n - bs = 0 := by omega
    rw [h2]
    have h3 : (0 + bs - 1) / bs = 0 := Nat.div_eq_of_lt (by omega)
    have h4 : (n - 1) / bs = 0 := Nat.div_eq_of_lt (by omega)
    rw [h3, h4]
  · have h2 : (n - bs) + bs - 1 = (n - bs - 1) + bs := by omega
    rw [h2, Nat.add_div_right _ hbs]
    have h3 : n - 1 = (n - bs - 1) + bs := by omega
    rw [h3, Nat.add_div_right _ hbs]

theorem chunksAux_flatten (bs : Nat) (hbs : 0 < bs) :
    ∀ fuel rows, rows.length ≤ fuel → (chunksAux bs fuel rows).flatten = rows := by
  intro fuel
  induction fuel with
  | zero =>
    intro rows hlen
    have hz : rows = [] := List.eq_nil_of_length_eq_zero (Nat.le_zero.mp hlen)
    subst hz
    rfl
  | succ fuel ih =>
    intro rows hlen
    cases rows with
    | nil => rfl
    | cons r rs =>
      have hstep : chunksAux bs (fuel + 1) (r :: rs)
          = ((r :: rs).take bs) :: chunksAux bs fuel ((r :: rs).drop bs) := rfl
      rw [hstep, List.flatten_cons]
      rw [ih ((r :: rs).drop bs) (by rw [List.length_drop]; omega)]
      exact List.take_append_drop bs (r :: rs)

theorem chunksAux_length (bs : Nat) (hbs : 0 < bs) :
    ∀ fuel rows, rows.length ≤ fuel →
      (chunksAux bs fuel rows).length = (rows.length + bs - 1) / bs := by
  intro fuel
  induction fuel with
  | zero =>
    intro rows hlen
    have hz : rows = [] := List.eq_nil_of_length_eq_zero (Nat.le_zero.mp hlen)
    subst hz
    show 0 = ((0 : Nat) + bs - 1) / bs
    exact (Nat.div_eq_of_lt (by omega)).symm
  | succ fuel ih =>
    intro rows hlen
    cases rows with
    | nil =>
      show 0 = ((0 : Nat) + bs - 1) / bs
      exact (Nat.div_eq_of_lt (by omega)).symm
    | cons r rs =>
      have hstep : chunksAux bs (fuel + 1) (r :: rs)
          = ((r :: rs).take bs) :: chunksAux bs fuel ((r :: rs).drop bs) := rfl
      rw [hstep, List.length_cons]
      rw [ih ((r :: rs).drop bs) (by rw [List.length_drop]; omega)]
      rw [List.length_drop]
      exact (ceil_step (r :: rs).length bs hbs (by simp)).symm

theorem chunksAux_ne_nil (bs fuel : Nat) (r : RowData) (rs : List RowData)
    (hfuel : 0 < fuel) : chunksAux bs fuel (r :: rs) ≠ [] := by
  cases fuel with
  | zero => omega
  | succ fuel => simp [chunksAux]

theorem chunksAux_dropLast_length (bs : Nat) (hbs : 0 < bs) :
    ∀ fuel rows, rows.length ≤ fuel →
      ∀ c ∈ (chunksAux bs fuel rows).dropLast, c.length = bs := by
  intro fuel
  induction fuel with
  | zero =>
    intro rows hlen
    have hz : rows = [] := List.eq_nil_of_length_eq_zero (Nat.le_zero.mp hlen)
    subst hz
    intro c hc
    simp [chunksAux] at hc
  | succ fuel ih =>
    intro rows hlen c hc
    cases rows with
    | nil => simp [chunksAux] at hc
    | cons r rs =>
      have hstep : chunksAux bs (fuel + 1) (r :: rs)
          = ((r :: rs).take bs) :: chunksAux bs fuel ((r :: rs).drop bs) := rfl
      rw [hstep] at hc
      cases hdrop : (r :: rs).drop bs with
      | nil =>
        rw [hdrop] at hc
        simp [chunksAux] at hc
      | cons d ds =>
        have hdlen : (r :: rs).length - bs = (d :: ds).length := by
          rw [← List.length_drop, hdrop]
        have hdpos : 0 < (d :: ds).length := by simp
        rw [hdrop] at hc
        have hne := chunksAux_ne_nil bs fuel d ds (by omega)
        cases hch : chunksAux bs fuel (d :: ds) with
        | nil => exact absurd hch hne
        | cons c0 cs =>
          rw [hch] at hc
          rw [List.dropLast_cons₂] at hc
          rcases List.mem_cons.mp hc with h | h
          · subst h
            rw [List.length_take]
            omega
          · have hrec := ih ((r :: rs).drop bs) (by rw [List.length_drop]; omega) c
            rw [hdrop, hch] at hrec
            exact hrec h

theorem chunksAux_getLast_length (bs : Nat) (hbs : 0 < bs) :
    ∀ fuel rows, rows.length ≤ fuel → 0 < rows.length →
      ∀ c, (chunksAux bs fuel rows).getLast? = some c →
        c.length = if rows.length % bs = 0 then bs else rows.length % bs := by
  intro fuel
  induction fuel with
  | zero =>
    intro rows hlen hpos
    omega
  | succ fuel ih =>
    intro rows hlen hpos c hc
    cases rows with
    | nil => simp at hpos
    | cons r rs =>
      have hstep : chunksAux bs (fuel + 1) (r :: rs)
          = ((r :: rs).take bs) :: chunksAux bs fuel ((r :: rs).drop bs) := rfl
      rw [hstep] at hc
      cases hdrop : (r :: rs).drop bs with
      | nil =>
        have hdlen : (r :: rs).length - bs = 0 := by
          rw [← List.length_drop, hdrop]
          rfl
        rw [hdrop] at hc
        simp [chunksAux, List.getLast?] at hc
        subst hc
        by_cases heq : (r :: rs).length = bs
        · rw [List.length_take, heq, Nat.mod_self]
          simp
        · have hlt : (r :: rs).length < bs := by omega
          rw [Nat.mod_eq_of_lt hlt]
          have hif : ¬ (r :: rs).length = 0 := by simp
          rw [if_neg hif, List.length_take]
          omega
      | cons d ds =>
        have hdlen : (r :: rs).length - bs = (d :: ds).length := by
          rw [← List.length_drop, hdrop]
        have hdpos : 0 < (d :: ds).length := by simp
        rw [hdrop] at hc
        have hne := chunksAux_ne_nil bs fuel d ds (by omega)
        cases hch : chunksAux bs fuel (d :: ds) with
        | nil => exact absurd hch hne
        | cons c0 cs =>
          rw [hch] at hc
          rw [List.getLast?_cons_cons] at hc
          have hrec := ih ((r :: rs).drop bs) (by rw [List.length_drop]; omega)
            (by rw [hdrop]; simp) c (by rw [hdrop, hch]; exact hc)
          have hge : bs ≤ (r :: rs).length := by omega
          rw [List.length_drop] at hrec
          rw [Nat.mod_eq_sub_mod hge]
          exact hrec

theorem insertLoop_success (bs : Nat) (exec : Nat → Bool) (hbs : 0 < bs) :
    ∀ fuel rows k0, rows.length ≤ fuel →
      (∀ i, i < (chunksAux bs fuel rows).length → exec (k0 + i) = true) →
      insertLoop bs exec fuel rows k0 = (chunksAux bs fuel rows, true) := by
  intro fuel
  induction fuel with
  | zero =>
    intro rows k0 hlen _
    have hz : rows = [] := List.eq_nil_of_length_eq_zero (Nat.le_zero.mp hlen)
    subst hz
    rfl
  | succ fuel ih =>
    intro rows k0 hlen hexec
    cases rows with
    | nil => rfl
    | cons r rs =>
      have hstep : chunksAux bs (fuel + 1) (r :: rs)
          = ((r :: rs).take bs) :: chunksAux bs fuel ((r :: rs).drop bs) := rfl
      have h0 : exec k0 = true := by
        have := hexec 0 (by rw [hstep]; simp)
        simpa using this
      show (if exec k0 then _ else _) = _
      rw [h0, if_pos rfl]
      rw [ih ((r :: rs).drop bs) (k0 + 1) (by rw [List.length_drop]; omega)
        (by
          intro i hi
          have := hexec (i + 1) (by rw [hstep, List.length_cons]; omega)
          rw [show k0 + (i + 1) = k0 + 1 + i by omega] at this
          exact this)]
      rw [hstep]

theorem insertLoop_fail (bs : Nat) (exec : Nat → Bool) (hbs : 0 < bs) :
    ∀ i fuel rows k0, rows.length ≤ fuel →
      (∀ j, j < i → exec (k0 + j) = true) → exec (k0 + i) = false →
      i < (chunksAux bs fuel rows).length →
      insertLoop bs exec fuel rows k0 = ((chunksAux bs fuel rows).take i, false) := by
  intro i
  induction i with
  | zero =>
    intro fuel rows k0 hlen _ hfail hlt
    cases rows with
    | nil => simp [chunksAux] at hlt
    | cons r rs =>
      cases fuel with
      | zero => simp at hlen
      | succ fuel =>
        have h0 : exec k0 = false := by simpa using hfail
        show (if exec k0 then _ else _) = _
        rw [h0]
        simp
  | succ i ih =>
    intro fuel rows k0 hlen hpre hfail hlt
    cases rows with
    | nil => simp [chunksAux] at hlt
    | cons r rs =>
      cases fuel with
      | zero => simp at hlen
      | succ fuel =>
        have hstep : chunksAux bs (fuel + 1) (r :: rs)
            = ((r :: rs).take bs) :: chunksAux bs fuel ((r :: rs).drop bs) := rfl
        have h0 : exec k0 = true := by
          have := hpre 0 (by omega)
          simpa using this
        show (if exec k0 then _ else _) = _
        rw [h0, if_pos rfl]
        rw [ih fuel ((r :: rs).drop bs) (k0 + 1) (by rw [List.length_drop]; omega)
          (by
            intro j hj
            have := hpre (j + 1) (by omega)
            rw [show k0 + (j + 1) = k0 + 1 + j by omega] at this
            exact this)
          (by rw [show k0 + 1 + i = k0 + (i + 1) by omega]; exact hfail)
          (by rw [hstep, List.length_cons] at hlt; omega)]
        rw [hstep, List.take_succ_cons]

/-- Claim C7: for nonempty input and positive batch size, batchInsertC
issues one insert per consecutive slice of the batch size, ceil(n/b) in
all (full slices except a last slice of n mod b when n mod b is not
zero); if every insert up to index k succeeds, either all ceil(n/b)
batches are written and the call succeeds (when k covers them), or the
failing k-th insert aborts the run with exactly the first k batches
left written and no later batch attempted. -/
theorem batch_insert_spec (m : Merger) (rows : List RowData) (exec : Nat → Bool) (k : Nat)
    (hb : 0 < m.batchSize) (hr : rows ≠ [])
    (hpre : ∀ j, j < k → exec j = true) :
    (chunks m.batchSize rows).flatten = rows
    ∧ (chunks m.batchSize rows).length = (rows.length + m.batchSize - 1) / m.batchSize
    ∧ (∀ c ∈ (chunks m.batchSize rows).dropLast, c.length = m.batchSize)
    ∧ (∀ c, (chunks m.batchSize rows).getLast? = some c →
        c.length = if rows.length % m.batchSize = 0 then m.batchSize
                   else rows.length % m.batchSize)
    ∧ ((chunks m.batchSize rows).length ≤ k →
        m.batchInsertC rows exec = (chunks m.batchSize rows, true))
    ∧ (k < (chunks m.batchSize rows).length → exec k = false →
        m.batchInsertC rows exec = ((chunks m.batchSize rows).take k, false)) := by
  have hpos : 0 < rows.length := List.length_pos.mpr hr
  refine ⟨chunksAux_flatten m.batchSize hb rows.length rows le_rfl,
          chunksAux_length m.batchSize hb rows.length rows le_rfl,
          chunksAux_dropLast_length m.batchSize hb rows.length rows le_rfl,
          chunksAux_getLast_length m.batchSize hb rows.length rows le_rfl hpos,
          ?_, ?_⟩
  · intro hk
    unfold Merger.batchInsertC
    rw [if_neg hr]
    exact insertLoop_success m.batchSize exec hb rows.length rows 0 le_rfl
      (fun i hi => by
        have := hpre i (by exact Nat.lt_of_lt_of_le hi hk)
        simpa using this)
  · intro hk hfail
    unfold Merger.batchInsertC
    rw [if_neg hr]
    exact insertLoop_fail m.batchSize exec hb k rows.length rows 0 le_rfl
      (fun j hj => by simpa using hpre j hj) (by simpa using hfail) hk

/-- Concrete instance of the C7 theorem: batch size 2, five records,
failure on the second insert leaves exactly the first batch written. -/
theorem batch_insert_spec_witness :
    (Merger.mk ["k"] [] [] ConflictStrategy.UseA 2 ["k"] ["k"]).batchInsertC
        [RowData.mk [], RowData.mk [], RowData.mk [], RowData.mk [], RowData.mk []]
        (fun j => j != 1)
      = ([[RowData.mk [], RowData.mk []]], false)
    ∧ (chunks 2 [RowData.mk [], RowData.mk [], RowData.mk [], RowData.mk [],
        RowData.mk []]).length = 3 := by
  have h := batch_insert_spec (Merger.mk ["k"] [] [] ConflictStrategy.UseA 2 ["k"] ["k"])
    [RowData.mk [], RowData.mk [], RowData.mk [], RowData.mk [], RowData.mk []]
    (fun j => j != 1) 1 (by decide) (by decide)
    (by
      intro j hj
      have hj0 : j = 0 := by omega
      subst hj0
      decide)
  refine ⟨?_, ?_⟩
  · rw [h.2.2.2.2.2 (by decide) (by decide)]
    decide
  · rw [h.2.1]
    decide

/-! ## Provenance invariant lemmas -/

theorem metaInvariant_fromA (m : Merger) (rowA : RowData) :
    metaInvariant (m.buildCRowFromAWithMeta rowA "A" false "") = true := by
  simp [metaInvariant, buildCRowFromAWithMeta_get]

theorem metaInvariant_fromB (m : Merger) (rowB : RowData) :
    metaInvariant (m.buildCRowFromB rowB) = true := by
  simp [metaInvariant, buildCRowFromB_get]

theorem metaInvariant_mergedA (m : Merger) (merged : RowData) (diffStr : String)
    (hd : diffStr ≠ "") :
    metaInvariant (m.buildCRowMerged merged "MERGE_A" true diffStr) = true := by
  have hb : (diffStr == "") = false := beq_eq_false_iff_ne.mpr hd
  simp [metaInvariant, buildCRowMerged_get, hd, hb]

theorem metaInvariant_mergedB (m : Merger) (merged : RowData) (diffStr : String)
    (hd : diffStr ≠ "") :
    metaInvariant (m.buildCRowMerged merged "MERGE_B" true diffStr) = true := by
  have hb : (diffStr == "") = false := beq_eq_false_iff_ne.mpr hd
  simp [metaInvariant, buildCRowMerged_get, hd, hb]

theorem metaInvariant_cm (m : Merger) (rowA rowB : RowData) (stats : MergeStats)
    (stdin : List (Option String)) (hnz : ∀ g ∈ m.compareFields, g ≠ "") :
    metaInvariant (m.compareAndMerge rowA rowB stats stdin).row = true := by
  by_cases hne : m.diffFieldsOf rowA rowB = []
  · rw [compareAndMerge_exact m rowA rowB stats stdin hne]
    exact metaInvariant_fromA m rowA
  · have hjoin := diffStr_ne_empty m rowA rowB hne hnz
    by_cases hman : (classifyDiffs rowA rowB (m.diffFieldsOf rowA rowB)
        (⟨m.mergedBase rowA, [], 0⟩ : ClassifyState)).manualDiffFields = []
    · rw [compareAndMerge_autoOnly m rowA rowB stats stdin hne hman]
      exact metaInvariant_mergedA m _ _ hjoin
    · by_cases hc : (resolveChoice m stdin).1 = UseA
      · rw [compareAndMerge_useA m rowA rowB stats stdin hne hman hc]
        exact metaInvariant_mergedA m _ _ hjoin
      · rw [compareAndMerge_useB m rowA rowB stats stdin hne hman hc]
        exact metaInvariant_mergedB m _ _ hjoin

theorem runAPass_invariant (m : Merger) (bIndex : List (String × RowData))
    (dataA : List RowData) (hnz : ∀ g ∈ m.compareFields, g ≠ "") :
    ∀ st : RunState, (∀ r ∈ st.resultRows, metaInvariant r = true) →
      ∀ r ∈ (m.runAPass bIndex dataA st).resultRows, metaInvariant r = true := by
  induction dataA with
  | nil =>
    intro st hst
    exact hst
  | cons a as ih =>
    intro st hst
    simp only [Merger.runAPass, List.foldl_cons] at *
    apply ih
    cases h : List.lookup (m.buildKey a) bIndex with
    | some rowB =>
      have hs : m.stepA bIndex st a
          = { stats := (m.compareAndMerge a rowB st.stats st.stdin).stats,
              resultRows := st.resultRows ++ [(m.compareAndMerge a rowB st.stats st.stdin).row],
              bMatched := m.buildKey a :: st.bMatched,
              stdin := (m.compareAndMerge a rowB st.stats st.stdin).stdin } := by
        unfold Merger.stepA
        simp only [h]
      rw [hs]
      intro r hr
      simp only [List.mem_append, List.mem_singleton] at hr
      rcases hr with hr | hr
      · exact hst r hr
      · subst hr
        exact metaInvariant_cm m a rowB st.stats st.stdin hnz
    | none =>
      have hs : m.stepA bIndex st a
          = { st with stats := { st.stats with OnlyInA := st.stats.OnlyInA + 1 },
                      resultRows := st.resultRows ++ [m.buildCRowFromAWithMeta a "A" false ""] } := by
        unfold Merger.stepA
        simp only [h]
      rw [hs]
      intro r hr
      simp only [List.mem_append, List.mem_singleton] at hr
      rcases hr with hr | hr
      · exact hst r hr
      · subst hr
        exact metaInvariant_fromA m a

theorem runBPass_invariant (m : Merger) (bMatched : List String)
    (dataB : List RowData) :
    ∀ st : MergeStats × List RowData, (∀ r ∈ st.2, metaInvariant r = true) →
      ∀ r ∈ (m.runBPass bMatched dataB st).2, metaInvariant r = true := by
  induction dataB with
  | nil =>
    intro st hst
    exact hst
  | cons b bs ih =>
    intro st hst
    simp only [Merger.runBPass, List.foldl_cons] at *
    apply ih
    by_cases hb : bMatched.contains (m.buildKey b)
    · rw [if_pos hb]
      exact hst
    · rw [if_neg hb]
      intro r hr
      simp only [List.mem_append, List.mem_singleton] at hr
      rcases hr with hr | hr
      · exact hst r hr
      · subst hr
        exact metaInvariant_fromB m b

/-- Claim C9: every record the run hands to the writer satisfies the
provenance invariant: conflict "1" exactly when source is MERGE_A or
MERGE_B, exactly when diff_fields is a non-NULL non-empty list, and
plain "A"/"B" records carry conflict "0" with NULL diff_fields. -/
theorem output_meta_invariant (m : Merger) (dataA dataB : List RowData)
    (stdin : List (Option String)) (hnz : ∀ g ∈ m.compareFields, g ≠ "") :
    ∀ r ∈ (m.runCore dataA dataB stdin).2, metaInvariant r = true := by
  intro r hr
  unfold Merger.runCore at hr
  simp only [] at hr
  exact runBPass_invariant m _ dataB _
    (runAPass_invariant m _ dataA hnz _ (by intro x hx; simp at hx)) r hr

/-- Concrete instance of the C9 theorem over a small full run covering
exact-match, conflict, A-only and B-only records. -/
theorem output_meta_invariant_witness :
    (((Merger.mk ["k"] [] [] ConflictStrategy.UseB 2 ["k", "x"] ["k", "x"]).runCore
        [RowData.mk [("k", some "1"), ("x", some "a")],
         RowData.mk [("k", some "2"), ("x", some "a")]]
        [RowData.mk [("k", some "1"), ("x", some "b")],
         RowData.mk [("k", some "3"), ("x", some "c")]] []).2.all metaInvariant) = true := by
  rw [List.all_eq_true]
  intro r hr
  exact output_meta_invariant
    (Merger.mk ["k"] [] [] ConflictStrategy.UseB 2 ["k", "x"] ["k", "x"])
    [RowData.mk [("k", some "1"), ("x", some "a")],
     RowData.mk [("k", some "2"), ("x", some "a")]]
    [RowData.mk [("k", some "1"), ("x", some "b")],
     RowData.mk [("k", some "3"), ("x", some "c")]] [] (by decide) r hr

/-! ## Run pass bookkeeping lemmas -/

theorem cm_stats_onlyInB (m : Merger) (rowA rowB : RowData) (stats : MergeStats)
    (stdin : List (Option String)) :
    (m.compareAndMerge rowA rowB stats stdin).stats.OnlyInB = stats.OnlyInB := by
  by_cases hne : m.diffFieldsOf rowA rowB = []
  · rw [compareAndMerge_exact m rowA rowB stats stdin hne]
  · by_cases hman : (classifyDiffs rowA rowB (m.diffFieldsOf rowA rowB)
        (⟨m.mergedBase rowA, [], 0⟩ : ClassifyState)).manualDiffFields = []
    · rw [compareAndMerge_autoOnly m rowA rowB stats stdin hne hman]
    · by_cases hc : (resolveChoice m stdin).1 = UseA
      · rw [compareAndMerge_useA m rowA rowB stats stdin hne hman hc]
      · rw [compareAndMerge_useB m rowA rowB stats stdin hne hman hc]

theorem runAPass_onlyInB (m : Merger) (bIndex : List (String × RowData))
    (dataA : List RowData) :
    ∀ st : RunState, (m.runAPass bIndex dataA st).stats.OnlyInB = st.stats.OnlyInB := by
  induction dataA with
  | nil =>
    intro st
    rfl
  | cons a as ih =>
    intro st
    simp only [Merger.runAPass, List.foldl_cons] at *
    rw [ih]
    cases h : List.lookup (m.buildKey a) bIndex with
    | some rowB =>
      have hs : m.stepA bIndex st a
          = { stats := (m.compareAndMerge a rowB st.stats st.stdin).stats,
              resultRows := st.resultRows ++ [(m.compareAndMerge a rowB st.stats st.stdin).row],
              bMatched := m.buildKey a :: st.bMatched,
              stdin := (m.compareAndMerge a rowB st.stats st.stdin).stdin } := by
        unfold Merger.stepA
        simp only [h]
      rw [hs]
      exact cm_stats_onlyInB m a rowB st.stats st.stdin
    | none =>
      have hs : m.stepA bIndex st a
          = { st with stats := { st.stats with OnlyInA := st.stats.OnlyInA + 1 },
                      resultRows := st.resultRows ++ [m.buildCRowFromAWithMeta a "A" false ""] } := by
        unfold Merger.stepA
        simp only [h]
      rw [hs]

theorem runAPass_bMatched (m : Merger) (bIndex : List (String × RowData))
    (dataA : List RowData) :
    ∀ (st : RunState) (k : String),
      k ∈ (m.runAPass bIndex dataA st).bMatched
        ↔ k ∈ st.bMatched
          ∨ ∃ a ∈ dataA, m.buildKey a = k ∧ (List.lookup k bIndex).isSome := by
  induction dataA with
  | nil =>
    intro st k
    simp [Merger.runAPass]
  | cons a as ih =>
    intro st k
    simp only [Merger.runAPass, List.foldl_cons] at *
    rw [ih]
    cases h : List.lookup (m.buildKey a) bIndex with
    | some rowB =>
      have hs : m.stepA bIndex st a
          = { stats := (m.compareAndMerge a rowB st.stats st.stdin).stats,
              resultRows := st.resultRows ++ [(m.compareAndMerge a rowB st.stats st.stdin).row],
              bMatched := m.buildKey a :: st.bMatched,
              stdin := (m.compareAndMerge a rowB st.stats st.stdin).stdin } := by
        unfold Merger.stepA
        simp only [h]
      rw [hs]
      simp only [List.mem_cons]
      constructor
      · rintro ((hk | hk) | ⟨a1, ha1, hk1, hs1⟩)
        · refine Or.inr ⟨a, Or.inl rfl, hk.symm, ?_⟩
          rw [hk, h]
          rfl
        · exact Or.inl hk
        · exact Or.inr ⟨a1, Or.inr ha1, hk1, hs1⟩
      · rintro (hk | ⟨a1, ha1, hk1, hs1⟩)
        · exact Or.inl (Or.inr hk)
        · rcases ha1 with he | he
          · subst he
            exact Or.inl (Or.inl hk1.symm)
          · exact Or.inr ⟨a1, he, hk1, hs1⟩
    | none =>
      have hs : m.stepA bIndex st a
          = { st with stats := { st.stats with OnlyInA := st.stats.OnlyInA + 1 },
                      resultRows := st.resultRows ++ [m.buildCRowFromAWithMeta a "A" false ""] } := by
        unfold Merger.stepA
        simp only [h]
      rw [hs]
      constructor
      · rintro (hk | ⟨a1, ha1, hk1, hs1⟩)
        · exact Or.inl hk
        · exact Or.inr ⟨a1, List.mem_cons_of_mem a ha1, hk1, hs1⟩
      · rintro (hk | ⟨a1, ha1, hk1, hs1⟩)
        · exact Or.inl hk
        · rcases List.mem_cons.mp ha1 with he | he
          · subst he
            rw [← hk1, h] at hs1
            exact absurd hs1 (by simp)
          · exact Or.inr ⟨a1, he, hk1, hs1⟩

theorem runBPass_spec (m : Merger) (bm : List String) (dataB : List RowData) :
    ∀ st : MergeStats × List RowData,
      (m.runBPass bm dataB st).2
        = st.2 ++ (dataB.filter (fun b => !(bm.contains (m.buildKey b)))).map m.buildCRowFromB
      ∧ (m.runBPass bm dataB st).1.OnlyInB
        = st.1.OnlyInB + (dataB.filter (fun b => !(bm.contains (m.buildKey b)))).length := by
  induction dataB with
  | nil =>
    intro st
    simp [Merger.runBPass]
  | cons b bs ih =>
    intro st
    simp only [Merger.runBPass, List.foldl_cons] at *
    by_cases hb : bm.contains (m.buildKey b)
    · rw [if_pos hb]
      have hfc : List.filter (fun x => !(bm.contains (m.buildKey x))) (b :: bs)
          = List.filter (fun x => !(bm.contains (m.buildKey x))) bs := by
        rw [List.filter_cons]
        have hbf : (!(bm.contains (m.buildKey b))) = false := by
          simp
          exact List.elem_iff.mp hb
        rw [hbf]
        simp
      rw [hfc]
      exact ih st
    · rw [if_neg hb]
      have hfc : List.filter (fun x => !(bm.contains (m.buildKey x))) (b :: bs)
          = b :: List.filter (fun x => !(bm.contains (m.buildKey x))) bs := by
        rw [List.filter_cons]
        have hbf : (!(bm.contains (m.buildKey b))) = true := by
          simp
          intro hm
          exact hb (List.elem_iff.mpr hm)
        rw [hbf]
        simp
      rw [hfc]
      obtain ⟨h1, h2⟩ := ih ({ st.1 with OnlyInB := st.1.OnlyInB + 1 }, st.2 ++ [m.buildCRowFromB b])
      refine ⟨?_, ?_⟩
      · rw [h1]
        simp
      · rw [h2]
        simp
        omega

theorem bIndex_lookup_isSome (m : Merger) (dataB : List RowData) (k : String) :
    (List.lookup k (m.buildBIndex dataB)).isSome = true
      ↔ ∃ b ∈ dataB, m.buildKey b = k := by
  rw [show List.lookup k (m.buildBIndex dataB) = (m.buildBIndex dataB).lookup k from rfl]
  rw [bindex_last_write_wins]
  rw [List.find?_isSome]
  simp [beq_iff_eq]

/-- Claim C10: the B-only pass emits exactly one record for every B row
whose key equals no A row's key, duplicate-key rows included, and the
OnlyInB counter counts those rows rather than distinct keys; the index
can therefore drop duplicate B rows only for keys some A row matched. -/
theorem b_only_pass_spec (m : Merger) (dataA dataB : List RowData)
    (stdin : List (Option String)) :
    (m.runCore dataA dataB stdin).2
      = (m.runAPass (m.buildBIndex dataB) dataA
          ⟨{ TotalA := dataA.length, TotalB := dataB.length }, [], [], stdin⟩).resultRows
        ++ (dataB.filter
            (fun b => !(dataA.any (fun a => m.buildKey a == m.buildKey b)))).map m.buildCRowFromB
    ∧ (m.runCore dataA dataB stdin).1.OnlyInB
      = (dataB.filter
          (fun b => !(dataA.any (fun a => m.buildKey a == m.buildKey b)))).length := by
  set st1 := m.runAPass (m.buildBIndex dataB) dataA
      ⟨{ TotalA := dataA.length, TotalB := dataB.length }, [], [], stdin⟩ with hst1
  have hfilt : dataB.filter (fun b => !(st1.bMatched.contains (m.buildKey b)))
      = dataB.filter (fun b => !(dataA.any (fun a => m.buildKey a == m.buildKey b))) := by
    apply List.filter_congr
    intro b hbmem
    have hsome : (List.lookup (m.buildKey b) (m.buildBIndex dataB)).isSome = true :=
      (bIndex_lookup_isSome m dataB (m.buildKey b)).mpr ⟨b, hbmem, rfl⟩
    have hiff : st1.bMatched.contains (m.buildKey b) = true
        ↔ dataA.any (fun a => m.buildKey a == m.buildKey b) = true := by
      rw [List.elem_iff]
      rw [hst1, runAPass_bMatched]
      simp only [List.not_mem_nil, false_or]
      rw [List.any_eq_true]
      constructor
      · rintro ⟨a1, ha1, hk1, _⟩
        exact ⟨a1, ha1, beq_iff_eq.mpr hk1⟩
      · rintro ⟨a1, ha1, hk1⟩
        exact ⟨a1, ha1, beq_iff_eq.mp hk1, hsome⟩
    cases hcb : st1.bMatched.contains (m.buildKey b) <;>
      cases hab : dataA.any (fun a => m.buildKey a == m.buildKey b) <;>
        simp_all
  obtain ⟨hrows, hcount⟩ := runBPass_spec m st1.bMatched dataB (st1.stats, st1.resultRows)
  have hcore2 : (m.runCore dataA dataB stdin).2
      = (m.runBPass st1.bMatched dataB (st1.stats, st1.resultRows)).2 := rfl
  have hcore1 : (m.runCore dataA dataB stdin).1.OnlyInB
      = (m.runBPass st1.bMatched dataB (st1.stats, st1.resultRows)).1.OnlyInB := rfl
  have hO : st1.stats.OnlyInB = 0 := by
    rw [hst1, runAPass_onlyInB]
  refine ⟨?_, ?_⟩
  · rw [hcore2, hrows, hfilt]
  · rw [hcore1, hcount, hfilt, hO]
    omega
